import Mathlib

/-!
Verification development for the kptncook-exporter repository.

The Python sources (`recipe.py`, `pdf_generator.py`) are shallowly embedded
below.  JSON-like API records are modelled by the inductive `PyVal`; Python
floats are modelled as exact rationals (every operation the quantity
formatter performs - doubling, integrality test, `Fraction(doubled)`,
`limit_denominator`, the 0.01 comparison - is exact rational arithmetic once
the input is fixed, so `ℚ` is the faithful carrier); Python `int` is `ℤ`.
External collaborators (the file system probe, PIL image sizing, the image
downloader path lookup) are passed in as an `Externals` record of oracle
functions, as the spec treats them as opaque services.
-/

/-- Model of a Python/JSON value as it appears in API responses.
`pynone` is Python `None`; a key that is present with value `None` is
distinct from an absent key (`pyGet` returns `some .pynone` vs `none`). -/
inductive PyVal where
  | pynone : PyVal
  | str (s : String) : PyVal
  | num (q : ℚ) : PyVal
  | dict (fields : List (String × PyVal)) : PyVal
  | list (items : List PyVal) : PyVal

/-- Dictionary lookup: `data.get(key)` / `key in data`.  Returns `none` when
the key is absent, `some v` (possibly `some .pynone`) when present. -/
def pyGet : List (String × PyVal) → String → Option PyVal
  | [], _ => Option.none
  | (k, v) :: rest, key => if k = key then some v else pyGet rest key

/-- Lookup with default: `data.get(key, dflt)`. -/
def pyGetD (d : List (String × PyVal)) (key : String) (dflt : PyVal) : PyVal :=
  (pyGet d key).getD dflt

/-- Coerce a value expected to be a dict.  A present non-dict value would make
the Python code raise at the subsequent `.get`; that situation is outside
every claim, and the model degrades it to the empty dict. -/
def asDict : PyVal → List (String × PyVal)
  | .dict f => f
  | _ => []

/-- Coerce a value expected to be a list (degrading as in `asDict`). -/
def asList : PyVal → List PyVal
  | .list l => l
  | _ => []

/-- Coerce a value expected to be a string; non-string values (which Python
would store untyped, against the dataclass annotation) degrade to `dflt`. -/
def asStr (dflt : String) : PyVal → String
  | .str s => s
  | _ => dflt

/-- Coerce a value expected to be an int (degrading as in `asStr`). -/
def asInt : PyVal → ℤ
  | .num q => if q.den = 1 then q.num else 0
  | _ => 0

/-- An optional string field: present string values survive, everything else
(absent key, `None`, wrong type) becomes `none`. -/
def strOpt : Option PyVal → Option String
  | some (.str s) => some s
  | _ => Option.none

/-- An optional numeric field, as in `strOpt`. -/
def numOpt : Option PyVal → Option ℚ
  | some (.num q) => some q
  | _ => Option.none

/-- The `Ingredient` dataclass of `recipe.py`. -/
structure Ingredient where
  title : String
  quantity : Option ℚ := Option.none
  measure : Option String := Option.none
  ingredient_id : Option String := Option.none
deriving DecidableEq, Repr

/-- `Ingredient.from_api_data` (recipe.py lines 17-38).  The branch on a
direct `"title"` key chooses where the name comes from; quantity and measure
are always read from the nested `unit` object and the identifier from the
direct `ingredientId` key, in both branches. -/
def Ingredient.from_api_data (data : List (String × PyVal)) : Ingredient :=
  let unit := asDict (pyGetD data "unit" (.dict []))
  let ingredient := asDict (pyGetD data "ingredient" (.dict []))
  let title :=
    if (pyGet data "title").isSome then
      asStr "Unknown ingredient" (pyGetD data "title" (.str "Unknown ingredient"))
    else
      asStr "Unknown ingredient" (pyGetD ingredient "title" (.str "Unknown ingredient"))
  { title := title
    quantity := numOpt (pyGet unit "quantity")
    measure := strOpt (pyGet unit "measure")
    ingredient_id := strOpt (pyGet data "ingredientId") }

/-- The `RecipeStep` dataclass of `recipe.py`. -/
structure RecipeStep where
  title : String
  ingredients : List Ingredient
  image_url : Option String := Option.none
  step_number : ℕ := 0
deriving DecidableEq, Repr

/-- `RecipeStep.from_api_data` (recipe.py lines 49-67).  The step number is
the caller-supplied 1-based position, never read from `data`. -/
def RecipeStep.from_api_data (data : List (String × PyVal)) (step_number : ℕ) :
    RecipeStep :=
  { title := asStr "" (pyGetD data "title" (.str ""))
    ingredients :=
      (asList (pyGetD data "ingredients" (.list []))).map
        (fun v => Ingredient.from_api_data (asDict v))
    image_url :=
      match pyGet data "image" with
      | some (.dict img) => strOpt (pyGet img "url")
      | _ => Option.none
    step_number := step_number }

/-- The `Recipe` dataclass of `recipe.py`. -/
structure Recipe where
  identifier : String
  title : String
  preparation_time : ℤ
  cooking_time : ℤ
  steps : List RecipeStep
  recipe_type : Option String := Option.none
  author_comment : Option String := Option.none
  all_ingredients : Option (List Ingredient) := Option.none
deriving DecidableEq, Repr

/-- The `for i, step_data in enumerate(data.get("steps", []), 1)` loop of
`Recipe.from_api_data`: 1-based enumeration in source order. -/
def parseSteps : List PyVal → ℕ → List RecipeStep
  | [], _ => []
  | v :: rest, i => RecipeStep.from_api_data (asDict v) i :: parseSteps rest (i + 1)

/-- Body of the top-level ingredient loop of `Recipe.from_api_data`
(recipe.py lines 100-107): here - and only here - the name comes from the
nested `ingredient` object, quantity and measure from the direct fields, and
the identifier from `ingredient._id.$oid`. -/
def parseMainIngredient (ing_data : List (String × PyVal)) : Ingredient :=
  let ingredient_obj := asDict (pyGetD ing_data "ingredient" (.dict []))
  { title := asStr "Unknown" (pyGetD ingredient_obj "title" (.str "Unknown"))
    quantity := numOpt (pyGet ing_data "quantity")
    measure := strOpt (pyGet ing_data "measure")
    ingredient_id :=
      strOpt (pyGet (asDict (pyGetD ingredient_obj "_id" (.dict []))) "$oid") }

/-- `Recipe.from_api_data` (recipe.py lines 82-118).  The
`all_ingredients_set` of per-step ingredient identifiers collected by the
Python loop (lines 87, 93-96) is never read afterwards and does not affect
the constructed value, so it is not modelled. -/
def Recipe.from_api_data (data : List (String × PyVal)) : Recipe :=
  { identifier :=
      asStr "" (pyGetD (asDict (pyGetD data "_id" (.dict []))) "$oid" (.str ""))
    title := asStr "Untitled Recipe" (pyGetD data "title" (.str "Untitled Recipe"))
    preparation_time := asInt (pyGetD data "preparationTime" (.num 0))
    cooking_time := asInt (pyGetD data "cookingTime" (.num 0))
    recipe_type := strOpt (pyGet data "rtype")
    author_comment := strOpt (pyGet data "authorComment")
    steps := parseSteps (asList (pyGetD data "steps" (.list []))) 1
    all_ingredients :=
      some ((asList (pyGetD data "ingredients" (.list []))).map
        (fun v => parseMainIngredient (asDict v))) }

/-- `Recipe.get_total_time` (recipe.py lines 120-122). -/
def Recipe.get_total_time (r : Recipe) : ℤ :=
  r.preparation_time + r.cooking_time

/-!
Embedding of `pdf_generator.py`.  The quantity formatter first: CPython's
`Fraction.limit_denominator` (the continued-fraction loop of
`fractions.py`) is embedded with an explicit iteration bound (`fuel`).  The
loop variable `d` is strictly decreasing and positive while the loop runs,
so `x.den + 1` units of fuel always suffice; the fuel-exhaustion branch is
unreachable (this is proved as part of the loop invariant lemma below) and
exists only to make the recursion structural.
-/

/-- The `while True` loop of CPython's `Fraction.limit_denominator`:
state `(p0, q0, p1, q1)` holds the last two convergents, `(n, d)` the
Euclidean remainder pair.  `a = n // d` (floor division); the loop breaks
when the next convergent denominator `q0 + a*q1` would exceed `M`.
Python would raise `ZeroDivisionError` at `d = 0`; that state is never
reached from a reduced fraction with denominator above `M` (proved below),
and the model returns the state unchanged there. -/
def ldLoop (M : ℕ) : ℕ → ℤ → ℤ → ℤ → ℤ → ℤ → ℤ → ℤ × ℤ × ℤ × ℤ × ℤ × ℤ
  | 0, p0, q0, p1, q1, n, d => (p0, q0, p1, q1, n, d)
  | fuel + 1, p0, q0, p1, q1, n, d =>
    if 0 < d then
      let a := Int.fdiv n d
      if (M : ℤ) < q0 + a * q1 then (p0, q0, p1, q1, n, d)
      else ldLoop M fuel p1 q1 (p0 + a * p1) (q0 + a * q1) d (n - a * d)
    else (p0, q0, p1, q1, n, d)

/-- CPython's `Fraction.limit_denominator(M)` (called with `M = 16` by
`format_quantity`).  A fraction whose denominator is already within the
bound is returned unchanged; otherwise the convergent loop runs and one of
the two final candidates is returned, chosen by the exact comparison
`2*d*(q0+k*q1) <= self._denominator` from `fractions.py`. -/
def limit_denominator (x : ℚ) (M : ℕ) : ℚ :=
  if x.den ≤ M then x
  else
    match ldLoop M (x.den + 1) 0 1 1 0 x.num (x.den : ℤ) with
    | (p0, q0, p1, q1, _n, d) =>
      let k := Int.fdiv ((M : ℤ) - q0) q1
      if 2 * d * (q0 + k * q1) ≤ (x.den : ℤ) then
        (p1 : ℚ) / (q1 : ℚ)
      else
        ((p0 + k * p1 : ℤ) : ℚ) / ((q0 + k * q1 : ℤ) : ℚ)

/-- Rendering of the fraction branch of `format_quantity`
(pdf_generator.py lines 97-108): a mixed number when the numerator exceeds
the denominator (dropping the fractional part when the remainder is 0),
a simple `num/den` string otherwise.  `//` and `%` are Python floor
division and modulus, i.e. `Int.fdiv` / `Int.fmod`. -/
def fractionString (frac : ℚ) : String :=
  if frac.num > (frac.den : ℤ) then
    let whole := Int.fdiv frac.num (frac.den : ℤ)
    let remainder := Int.fmod frac.num (frac.den : ℤ)
    if remainder = 0 then toString whole
    else toString whole ++ " " ++ toString remainder ++ "/" ++ toString frac.den
  else
    toString frac.num ++ "/" ++ toString frac.den

/-- Python `math.floor` on an exact rational (`⌊x⌋`). -/
def pyFloor (x : ℚ) : ℤ := x.num / (x.den : ℤ)

/-- Round an exact rational to the nearest integer, halves to the even
neighbour - the rounding used by CPython's fixed-point float formatting.
(The model works on the exact rational; a Python binary float next to an
exact half can land on either side, an artefact of the float embedding that
no claim depends on.) -/
def roundHalfEven (x : ℚ) : ℤ :=
  let fl := pyFloor x
  let r := x - (fl : ℚ)
  if r < 1 / 2 then fl
  else if 1 / 2 < r then fl + 1
  else if fl % 2 = 0 then fl else fl + 1

/-- `f"{d:.1f}"`: the value rendered with exactly one decimal digit. -/
def oneDecimalRepr (d : ℚ) : String :=
  let n := roundHalfEven (d * 10)
  let sign := if n < 0 then "-" else ""
  sign ++ toString (n.natAbs / 10) ++ "." ++ toString (n.natAbs % 10)

/-- Python `s.rstrip(c)`: remove trailing copies of one character. -/
def rstripChar (s : String) (c : Char) : String :=
  String.mk ((s.toList.reverse.dropWhile (fun x => x = c)).reverse)

/-- `PDFGenerator.format_quantity` (pdf_generator.py lines 84-111).
`doubled == int(doubled)` holds exactly when the rational is an integer
(denominator 1), and `str(int(doubled))` is its decimal string. -/
def format_quantity (quantity : ℚ) : String :=
  let doubled := quantity * 2
  if doubled.den = 1 then toString doubled.num
  else
    let frac := limit_denominator doubled 16
    if |frac - doubled| < 1 / 100 then fractionString frac
    else rstripChar (rstripChar (oneDecimalRepr doubled) '0') '.'

/-- Python truthiness of an optional float: `None` and `0.0` are falsy. -/
def pyTruthyNum : Option ℚ → Bool
  | Option.none => false
  | some q => decide (q ≠ 0)

/-- Python truthiness of an optional string: `None` and `""` are falsy. -/
def pyTruthyStr : Option String → Bool
  | Option.none => false
  | some s => decide (s ≠ "")

/-- `PDFGenerator.format_ingredient` (pdf_generator.py lines 113-122).
The Python conditions `if ingredient.quantity and ingredient.measure` and
`elif ingredient.quantity` test truthiness, not mere presence. -/
def format_ingredient (ing : Ingredient) : String :=
  if pyTruthyNum ing.quantity && pyTruthyStr ing.measure then
    format_quantity (ing.quantity.getD 0) ++ " " ++ ing.measure.getD "" ++ " " ++ ing.title
  else if pyTruthyNum ing.quantity then
    format_quantity (ing.quantity.getD 0) ++ " " ++ ing.title
  else
    ing.title

/-- Character test mirroring Python's Unicode-aware `str.isalnum`, modelled
on the code points below 0x100 (ASCII plus Latin-1: the Latin-1 letters,
`ª µ º` and the superscript digits `² ³ ¹` are alphanumeric in Python,
`×` and `÷` are not).  Python also accepts alphanumeric code points above
this range; those likewise fall outside the ASCII class `[A-Za-z0-9]`, so
the restriction does not affect any claim. -/
def pyIsAlnum (c : Char) : Bool :=
  (('0' ≤ c && c ≤ '9') || ('A' ≤ c && c ≤ 'Z') || ('a' ≤ c && c ≤ 'z')) ||
  (c.toNat = 0xAA || c.toNat = 0xB5 || c.toNat = 0xBA ||
    c.toNat = 0xB2 || c.toNat = 0xB3 || c.toNat = 0xB9) ||
  ((0xC0 ≤ c.toNat && c.toNat ≤ 0xFF) && c.toNat ≠ 0xD7 && c.toNat ≠ 0xF7)

/-- Python whitespace (for default `str.rstrip()`).  Only the plain space
can survive the preceding filter, but the model keeps the general test. -/
def pyIsSpace (c : Char) : Bool :=
  c = ' ' || c = '\t' || c = '\n' || c = '\r' ||
    c.toNat = 0xB || c.toNat = 0xC || c.toNat = 0x1C || c.toNat = 0x1D ||
    c.toNat = 0x1E || c.toNat = 0x1F || c.toNat = 0x85 || c.toNat = 0xA0

/-- The cleaned title computed by `PDFGenerator.generate_recipe_filename`
(pdf_generator.py lines 230-240), before the `.pdf` extension: keep
alphanumerics (Python semantics) and space/dash/underscore, strip trailing
whitespace, replace spaces with underscores, truncate past 50 characters. -/
def safeTitleChars (title : List Char) : List Char :=
  let kept := title.filter (fun c => pyIsAlnum c || c = ' ' || c = '-' || c = '_')
  let stripped := (kept.reverse.dropWhile (fun c => pyIsSpace c)).reverse
  let replaced := stripped.map (fun c => if c = ' ' then '_' else c)
  if replaced.length > 50 then replaced.take 50 else replaced

/-- `PDFGenerator.generate_recipe_filename`: cleaned title plus `.pdf`. -/
def generate_recipe_filename (title : String) : String :=
  String.mk (safeTitleChars title.toList) ++ ".pdf"

/-- `reportlab.lib.units.inch` (72 points). -/
def inch : ℚ := 72

/-- One flowable appended to the reportlab `story` list.  Styling constants
(fonts, colours, paddings) are policy values of the rendering engine and are
not modelled beyond the style name. -/
inductive Block where
  | para (style : String) (text : String) : Block
  | spacer (w h : ℚ) : Block
  | table (rows : List (String × String)) : Block
  | image (path : String) (width height : ℚ) : Block
deriving DecidableEq, Repr

/-- Oracle functions for the external collaborators used while rendering:
`os.path.exists`, PIL image sizing (`none` models the caught exception of
`add_recipe_image`), and `ImageDownloader.get_image_path`. -/
structure Externals where
  fileExists : String → Bool
  imageSize : String → Option (ℚ × ℚ)
  imagePath : String → String

/-- `PDFGenerator.add_recipe_header` (pdf_generator.py lines 124-160):
title paragraph, spacer, then a key-value table whose rows appear
conditionally (Python truthiness for the string fields, `> 0` for the
times); the table and its spacer are omitted when no row applies. -/
def add_recipe_header (r : Recipe) : List Block :=
  let info_data : List (String × String) :=
    (if pyTruthyStr r.recipe_type then [("Typ:", r.recipe_type.getD "")] else []) ++
    (if r.preparation_time > 0 then
      [("Vorbereitungszeit:", toString r.preparation_time ++ " Minuten")] else []) ++
    (if r.cooking_time > 0 then
      [("Kochzeit:", toString r.cooking_time ++ " Minuten")] else []) ++
    (if r.get_total_time > 0 then
      [("Gesamtzeit:", toString r.get_total_time ++ " Minuten")] else []) ++
    (match r.author_comment with
      | some c => [("Beschreibung:", c)]
      | Option.none => []) ++
    (if r.identifier ≠ "" then [("Rezept-ID:", r.identifier)] else [])
  [Block.para "RecipeTitle" r.title, Block.spacer 1 12] ++
    (if info_data = [] then [] else [Block.table info_data, Block.spacer 1 12])

/-- `PDFGenerator.add_ingredients_section` (pdf_generator.py lines 162-173):
nothing at all when `recipe.all_ingredients` is falsy (`None` or empty),
otherwise a header line, one bulleted line per ingredient in list order,
and a spacer. -/
def add_ingredients_section (r : Recipe) : List Block :=
  match r.all_ingredients with
  | Option.none => []
  | some [] => []
  | some ingredients =>
    Block.para "SectionHeader" "Zutaten (für 2 Personen)" ::
      ingredients.map (fun ing => Block.para "Ingredient" ("• " ++ format_ingredient ing)) ++
      [Block.spacer 1 16]

/-- `PDFGenerator.add_recipe_image` (pdf_generator.py lines 175-200):
nothing when the file is missing or PIL raises; otherwise the image scaled
down to `max_width` preserving aspect ratio when too wide, at natural size
otherwise, followed by a spacer. -/
def add_recipe_image (ext : Externals) (image_path : String)
    (max_width : ℚ := 4 * inch) : List Block :=
  if !ext.fileExists image_path then []
  else
    match ext.imageSize image_path with
    | Option.none => []
    | some (img_width, img_height) =>
      if img_width > max_width then
        [Block.image image_path max_width (img_height * (max_width / img_width)),
          Block.spacer 1 8]
      else
        [Block.image image_path img_width img_height, Block.spacer 1 8]

/-- Blocks emitted for one step inside `add_steps_section`: title line,
optional image (when the step number is a key of `recipe_images`), optional
labelled sub-ingredient list, and a trailing spacer. -/
def stepBlocks (ext : Externals) (imgs : ℕ → Option String) (step : RecipeStep) :
    List Block :=
  Block.para "StepTitle" ("Schritt " ++ toString step.step_number ++ ": " ++ step.title) ::
    ((match imgs step.step_number with
      | some image_filename => add_recipe_image ext (ext.imagePath image_filename)
      | Option.none => []) ++
    (if step.ingredients = [] then []
      else
        Block.para "Normal" "<b>Zutaten für diesen Schritt:</b>" ::
          step.ingredients.map
            (fun ing => Block.para "Ingredient" ("• " ++ format_ingredient ing)) ++
          [Block.spacer 1 6]) ++
    [Block.spacer 1 12])

/-- `PDFGenerator.add_steps_section` (pdf_generator.py lines 202-228):
nothing at all when `recipe.steps` is empty, otherwise the section header
followed by each step's blocks in order. -/
def add_steps_section (ext : Externals) (r : Recipe) (imgs : ℕ → Option String) :
    List Block :=
  if r.steps = [] then []
  else
    Block.para "SectionHeader" "Anweisungen" ::
      (r.steps.map (stepBlocks ext imgs)).flatten

/-- The `story` assembled by `PDFGenerator.generate_recipe_pdf`
(pdf_generator.py lines 266-276): header, ingredients section, steps
section, in that order. -/
def buildStory (ext : Externals) (r : Recipe) (imgs : ℕ → Option String) :
    List Block :=
  add_recipe_header r ++ add_ingredients_section r ++ add_steps_section ext r imgs

structure LdInv (M : ℕ) (N D p0 q0 p1 q1 n d : ℤ) : Prop where
  hN : p1 * n + p0 * d = N
  hD : q1 * n + q0 * d = D
  det : p1 * q0 - p0 * q1 = 1 ∨ p1 * q0 - p0 * q1 = -1
  hq1 : 1 ≤ q1
  hq0 : 0 ≤ q0
  hq0M : q0 ≤ (M : ℤ)
  hq1M : q1 ≤ (M : ℤ)
  hd : 1 ≤ d
  hnd : d < n

def IsClosestSixteenth (x b : ℚ) : Prop :=
  b.den ≤ 16 ∧ (∀ c : ℚ, c.den ≤ 16 → |b - x| ≤ |c - x|) ∧
    (∀ c : ℚ, c.den ≤ 16 → |c - x| = |b - x| → b.den ≤ c.den)

/-- A "main"-shape ingredient record (no direct `title` key): the name sits
under `ingredient`, quantity and measure are direct fields, the identifier
is `ingredient._id.$oid`. -/
def mainShapeRecord : List (String × PyVal) :=
  [("ingredient", .dict [("title", .str "Salz"), ("_id", .dict [("$oid", .str "abc")])]),
   ("quantity", .num 5), ("measure", .str "g")]

/-- A "step"-shape ingredient record carrying a direct `title` key alongside
a nested `ingredient` object and a `unit` object. -/
def stepShapeRecord : List (String × PyVal) :=
  [("title", .str "Tomate"), ("ingredient", .dict [("title", .str "Falsch")]),
   ("unit", .dict [("quantity", .num 2), ("measure", .str "Stück")])]

/-- Oracles under which every file is missing (the witness rendering needs
no external state). -/
def noExternals : Externals :=
  { fileExists := fun _ => false
    imageSize := fun _ => Option.none
    imagePath := fun s => s }

/-- A recipe with no steps and an empty top-level ingredient list. -/
def emptyRecipe : Recipe :=
  { identifier := "r1", title := "Leer", preparation_time := 5, cooking_time := 7,
    steps := [], all_ingredients := some [] }

/-!
Claim-side definitions and theorems.  Concrete records used as witnesses
and counterexamples are declared first.
-/

/-- C1, counterexample: on a record without a direct `title` key,
`Ingredient.from_api_data` does not return the claimed Ingredient - the
name is taken from `ingredient.title` as claimed, but quantity and measure
are read from the (absent) `unit` object rather than the direct fields, and
the identifier from the (absent) `ingredientId` key rather than
`ingredient._id`. -/
theorem ingredient_parse_main_cex :
    pyGet mainShapeRecord "title" = Option.none ∧
    Ingredient.from_api_data mainShapeRecord ≠
      { title := "Salz", quantity := some 5, measure := some "g",
        ingredient_id := some "abc" } := by
  exact ⟨rfl, by decide⟩

/-- C1, amended: for a record without a direct `title` key,
`Ingredient.from_api_data` takes the name from the nested `ingredient.title`
but the quantity/measure from the nested `unit` object and the identifier
from the direct `ingredientId` key (first part); the claimed sourcing -
direct quantity/measure and `ingredient._id.$oid` identifier - is what the
separate top-level ingredient parse inside `Recipe.from_api_data` performs
(second part). -/
theorem ingredient_parse_main_amended :
    (∀ (data u ing : List (String × PyVal)) (qv : ℚ) (m iid s : String),
      pyGet data "title" = Option.none →
      pyGet data "ingredient" = some (.dict ing) →
      pyGet ing "title" = some (.str s) →
      pyGet data "unit" = some (.dict u) →
      pyGet u "quantity" = some (.num qv) →
      pyGet u "measure" = some (.str m) →
      pyGet data "ingredientId" = some (.str iid) →
      Ingredient.from_api_data data =
        { title := s, quantity := some qv, measure := some m,
          ingredient_id := some iid }) ∧
    (∀ (ing_data ingObj idObj : List (String × PyVal)) (s oid : String) (qv : ℚ)
      (m : String),
      pyGet ing_data "ingredient" = some (.dict ingObj) →
      pyGet ingObj "title" = some (.str s) →
      pyGet ingObj "_id" = some (.dict idObj) →
      pyGet idObj "$oid" = some (.str oid) →
      pyGet ing_data "quantity" = some (.num qv) →
      pyGet ing_data "measure" = some (.str m) →
      parseMainIngredient ing_data =
        { title := s, quantity := some qv, measure := some m,
          ingredient_id := some oid }) := by
  constructor
  · intro data u ing qv m iid s h1 h2 h3 h4 h5 h6 h7
    simp [Ingredient.from_api_data, pyGetD, h1, h2, h3, h4, h5, h6, h7,
      asDict, asStr, numOpt, strOpt]
  · intro ing_data ingObj idObj s oid qv m h1 h2 h3 h4 h5 h6
    simp [parseMainIngredient, pyGetD, h1, h2, h3, h4, h5, h6,
      asDict, asStr, numOpt, strOpt]

/-- C1, witness for the amended theorem at concrete records. -/
theorem ingredient_parse_main_amended_witness :
    Ingredient.from_api_data
      [("ingredient", .dict [("title", .str "Mehl")]),
       ("unit", .dict [("quantity", .num 3), ("measure", .str "EL")]),
       ("ingredientId", .str "id7")] =
      { title := "Mehl", quantity := some 3, measure := some "EL",
        ingredient_id := some "id7" } ∧
    parseMainIngredient mainShapeRecord =
      { title := "Salz", quantity := some 5, measure := some "g",
        ingredient_id := some "abc" } :=
  ⟨ingredient_parse_main_amended.1 _ _ _ 3 "EL" "id7" "Mehl"
      rfl rfl rfl rfl rfl rfl rfl,
    ingredient_parse_main_amended.2 _ _ _ "Salz" "abc" 5 "g"
      rfl rfl rfl rfl rfl rfl⟩

/-- C8: a record with a direct `title` key always takes its name from that
key (the "step" shape rule), whatever else the record contains. -/
theorem ingredient_parse_title_precedence (data : List (String × PyVal)) (s : String)
    (h : pyGet data "title" = some (.str s)) :
    (Ingredient.from_api_data data).title = s := by
  simp [Ingredient.from_api_data, pyGetD, h, asStr]

/-- C8, witness: the record also contains an `ingredient` key, and the name
still comes from the direct `title` field. -/
theorem ingredient_parse_title_precedence_witness :
    (Ingredient.from_api_data stepShapeRecord).title = "Tomate" :=
  ingredient_parse_title_precedence stepShapeRecord "Tomate" rfl

/-- C6: a recipe record missing `_id`, `title`, `preparationTime` and
`cookingTime` parses to the defaults: empty identifier, "Untitled Recipe",
zero times, zero total time. -/
theorem recipe_missing_fields_defaults (data : List (String × PyVal))
    (h1 : pyGet data "_id" = Option.none) (h2 : pyGet data "title" = Option.none)
    (h3 : pyGet data "preparationTime" = Option.none)
    (h4 : pyGet data "cookingTime" = Option.none) :
    (Recipe.from_api_data data).identifier = "" ∧
    (Recipe.from_api_data data).title = "Untitled Recipe" ∧
    (Recipe.from_api_data data).preparation_time = 0 ∧
    (Recipe.from_api_data data).cooking_time = 0 ∧
    (Recipe.from_api_data data).get_total_time = 0 := by
  simp [Recipe.from_api_data, Recipe.get_total_time, pyGetD, h1, h2, h3, h4,
    asDict, asStr, asInt, pyGet]

/-- C6, witness: the empty record. -/
theorem recipe_missing_fields_defaults_witness :
    (Recipe.from_api_data []).identifier = "" ∧
    (Recipe.from_api_data []).title = "Untitled Recipe" ∧
    (Recipe.from_api_data []).preparation_time = 0 ∧
    (Recipe.from_api_data []).cooking_time = 0 ∧
    (Recipe.from_api_data []).get_total_time = 0 :=
  recipe_missing_fields_defaults [] rfl rfl rfl rfl

/-- Step numbers produced by the enumeration loop are consecutive from the
starting index, whatever the step records contain. -/
theorem parseSteps_step_numbers (l : List PyVal) (i : ℕ) :
    (parseSteps l i).map RecipeStep.step_number = List.range' i l.length := by
  induction l generalizing i with
  | nil => rfl
  | cons v rest ih =>
    simp [parseSteps, RecipeStep.from_api_data, List.range'_succ, ih]

/-- C7: the parsed steps carry step numbers exactly `1, 2, ..., len(steps)`
in source order, regardless of any numeric field inside the step records. -/
theorem recipe_step_numbers (data : List (String × PyVal)) :
    ((Recipe.from_api_data data).steps).map RecipeStep.step_number =
      List.range' 1 ((Recipe.from_api_data data).steps).length := by
  have hlen : ∀ (l : List PyVal) (i : ℕ), (parseSteps l i).length = l.length := by
    intro l
    induction l with
    | nil => intro i; rfl
    | cons v rest ih => intro i; simp [parseSteps, ih]
  simp only [Recipe.from_api_data]
  rw [parseSteps_step_numbers, hlen]

/-- C9: an empty steps list contributes no steps block at all, and an empty
top-level ingredients list contributes no ingredients block at all. -/
theorem render_empty_sections (ext : Externals) (r : Recipe)
    (imgs : ℕ → Option String) :
    (r.steps = [] →
      add_steps_section ext r imgs = [] ∧
      buildStory ext r imgs = add_recipe_header r ++ add_ingredients_section r) ∧
    (r.all_ingredients = some [] →
      add_ingredients_section r = [] ∧
      buildStory ext r imgs = add_recipe_header r ++ add_steps_section ext r imgs) := by
  constructor
  · intro h
    have hs : add_steps_section ext r imgs = [] := by
      simp [add_steps_section, h]
    exact ⟨hs, by simp [buildStory, hs]⟩
  · intro h
    have hi : add_ingredients_section r = [] := by
      simp [add_ingredients_section, h]
    exact ⟨hi, by simp [buildStory, hi]⟩

/-- C9, witness: on a concrete empty recipe both sections vanish. -/
theorem render_empty_sections_witness :
    (add_steps_section noExternals emptyRecipe (fun _ => Option.none) = [] ∧
      buildStory noExternals emptyRecipe (fun _ => Option.none) =
        add_recipe_header emptyRecipe ++ add_ingredients_section emptyRecipe) ∧
    (add_ingredients_section emptyRecipe = [] ∧
      buildStory noExternals emptyRecipe (fun _ => Option.none) =
        add_recipe_header emptyRecipe ++ add_steps_section noExternals emptyRecipe
          (fun _ => Option.none)) :=
  ⟨(render_empty_sections noExternals emptyRecipe (fun _ => Option.none)).1 rfl,
    (render_empty_sections noExternals emptyRecipe (fun _ => Option.none)).2 rfl⟩

/-- C2, counterexample: Python's `isalnum` is Unicode-aware, so a title with
an umlaut survives the filter and the generated filename contains a
character outside the ASCII class `[A-Za-z0-9 _-]`. -/
theorem filename_sanitization_cex :
    'ä' ∈ safeTitleChars "Käse".toList ∧
    ¬(('ä'.isAlphanum = true) ∨ 'ä' = ' ' ∨ 'ä' = '-' ∨ 'ä' = '_') ∧
    generate_recipe_filename "Käse" = "Käse.pdf" := by
  exact ⟨by decide, by decide, by decide⟩

/-- C2, amended: the cleaned title (the filename before `.pdf`) is at most
50 characters long and every character is Python-alphanumeric, `-` or `_`
(never a space: spaces are converted to underscores); characters outside
Python's alphanumeric class plus ` -_` are removed, but non-ASCII
alphanumerics such as `ä` are kept. -/
theorem filename_sanitization_amended (title : String) :
    (safeTitleChars title.toList).length ≤ 50 ∧
    (safeTitleChars title.toList).all
      (fun c => (pyIsAlnum c || c = '-' || c = '_') && !(c = ' ')) = true := by
  unfold safeTitleChars
  constructor
  · dsimp only
    split
    · simp [Nat.min_le_left 50 _]
    · omega
  · have hall :
        ∀ x ∈ ((title.toList.filter
            (fun c => pyIsAlnum c || c = ' ' || c = '-' || c = '_')).reverse.dropWhile
              (fun c => pyIsSpace c)).reverse.map
            (fun c => if c = ' ' then '_' else c),
          ((pyIsAlnum x || x = '-' || x = '_') && !(x = ' ')) = true := by
      intro x hx
      rw [List.mem_map] at hx
      obtain ⟨c, hc, hcx⟩ := hx
      rw [List.mem_reverse] at hc
      have hc2 := (List.dropWhile_sublist _).subset hc
      rw [List.mem_reverse, List.mem_filter] at hc2
      by_cases hsp : c = ' '
      · subst hcx; simp [hsp]
      · subst hcx
        have := hc2.2
        simp only [Bool.or_eq_true, decide_eq_true_eq] at this
        simp only [hsp, if_false, Bool.and_eq_true, Bool.or_eq_true,
          decide_eq_true_eq, Bool.not_eq_true', decide_eq_false_iff_not]
        tauto
    dsimp only
    split
    · rw [List.all_eq_true]
      intro x hx
      exact hall x (List.take_subset _ _ hx)
    · rw [List.all_eq_true]
      exact hall

unseal Rat.mul Rat.add Rat.sub Rat.inv in
/-- C3, counterexample: a present quantity of `0.0` is falsy in Python, so
the ingredient renders as the bare title although quantity and measure are
both present; the claim would render `"0 g Salz"`. -/
theorem format_ingredient_zero_quantity_cex :
    format_ingredient
        { title := "Salz", quantity := some 0, measure := some "g" } = "Salz" ∧
    format_ingredient
        { title := "Salz", quantity := some 0, measure := some "g" } ≠
      format_quantity 0 ++ " " ++ "g" ++ " " ++ "Salz" := by
  exact ⟨by decide, by decide⟩

/-- C3, amended: the three-way rendering holds with "present" strengthened
to Python truthiness - quantity present and nonzero, measure present and
nonempty; a ` None`/zero quantity always yields the bare title. -/
theorem format_ingredient_truthiness (ing : Ingredient) :
    (∀ (q : ℚ) (m : String), ing.quantity = some q → q ≠ 0 →
      ing.measure = some m → m ≠ "" →
      format_ingredient ing = format_quantity q ++ " " ++ m ++ " " ++ ing.title) ∧
    (∀ q : ℚ, ing.quantity = some q → q ≠ 0 →
      (ing.measure = Option.none ∨ ing.measure = some "") →
      format_ingredient ing = format_quantity q ++ " " ++ ing.title) ∧
    ((ing.quantity = Option.none ∨ ing.quantity = some 0) →
      format_ingredient ing = ing.title) := by
  refine ⟨?_, ?_, ?_⟩
  · intro q m hq hq0 hm hm0
    simp [format_ingredient, pyTruthyNum, pyTruthyStr, hq, hm, hq0, hm0]
  · intro q hq hq0 hm
    rcases hm with hm | hm <;>
      simp [format_ingredient, pyTruthyNum, pyTruthyStr, hq, hm, hq0]
  · intro hq
    rcases hq with hq | hq <;>
      simp [format_ingredient, pyTruthyNum, pyTruthyStr, hq]

/-- C3, witness for the amended theorem: a truthy quantity and measure
produce the full rendering. -/
theorem format_ingredient_truthiness_witness :
    format_ingredient { title := "Salz", quantity := some 1, measure := some "g" } =
      format_quantity 1 ++ " " ++ "g" ++ " " ++ "Salz" :=
  (format_ingredient_truthiness
      { title := "Salz", quantity := some 1, measure := some "g" }).1
    1 "g" rfl (by norm_num) rfl (by decide)

unseal Rat.mul Rat.add Rat.sub Rat.inv in
/-- C5: a quantity whose doubled value is the integer `N` is rendered as the
decimal string of `N`, and in particular `format_quantity 1 = "2"`. -/
theorem format_quantity_integer :
    (∀ (q : ℚ) (N : ℤ), q * 2 = (N : ℚ) → format_quantity q = toString N) ∧
    format_quantity 1 = "2" := by
  constructor
  · intro q N h
    simp [format_quantity, h]
  · decide

/-- C5, witness: `format_quantity (5/2) = "5"`. -/
theorem format_quantity_integer_witness :
    format_quantity (5 / 2 : ℚ) = toString (5 : ℤ) :=
  format_quantity_integer.1 (5 / 2) 5 (by norm_num)

/-- Running the convergent loop from any state satisfying the invariant
reaches, within the fuel bound, a state that still satisfies it and whose
next convergent denominator would exceed `M` (the Python `break`). -/
theorem ldLoop_break (M : ℕ) (N D : ℤ) (hgcd : Int.gcd N D = 1) (hMD : (M : ℤ) < D) :
    ∀ (fuel : ℕ) (p0 q0 p1 q1 n d : ℤ), LdInv M N D p0 q0 p1 q1 n d →
      d.toNat < fuel →
      ∃ P0 Q0 P1 Q1 n2 d2,
        ldLoop M fuel p0 q0 p1 q1 n d = (P0, Q0, P1, Q1, n2, d2) ∧
        LdInv M N D P0 Q0 P1 Q1 n2 d2 ∧
        (M : ℤ) < Q0 + (Int.fdiv n2 d2) * Q1 := by
  intro fuel
  induction fuel with
  | zero =>
    intro p0 q0 p1 q1 n d hinv hfuel
    have := hinv.hd
    exact absurd hfuel (by omega)
  | succ fuel ih =>
    intro p0 q0 p1 q1 n d hinv hfuel
    have hd0 : 0 < d := hinv.hd
    have hnd := hinv.hnd
    have hq0 := hinv.hq0
    have hq1 := hinv.hq1
    have ha : Int.fdiv n d = n / d := Int.fdiv_eq_ediv n hd0.le
    by_cases hbreak : (M : ℤ) < q0 + Int.fdiv n d * q1
    · refine ⟨p0, q0, p1, q1, n, d, ?_, hinv, hbreak⟩
      simp only [ldLoop, if_pos hd0, if_pos hbreak]
    · have hr0 : 0 ≤ n % d := Int.emod_nonneg n hd0.ne'
      have hrd : n % d < d := Int.emod_lt_of_pos n hd0
      have hstep : n - Int.fdiv n d * d = n % d := by
        rw [ha, Int.emod_def]; ring
      have hr1 : 1 ≤ n % d := by
        rcases lt_or_le (n % d) 1 with hlt | hge
        · exfalso
          have hr : n % d = 0 := le_antisymm (by omega) hr0
          have hn : n = Int.fdiv n d * d := by omega
          have hdN : d ∣ N := by
            refine ⟨p1 * Int.fdiv n d + p0, ?_⟩
            rw [← hinv.hN]
            linear_combination p1 * hn
          have hdD : d ∣ D := by
            refine ⟨q1 * Int.fdiv n d + q0, ?_⟩
            rw [← hinv.hD]
            linear_combination q1 * hn
          have hd1 : d = 1 := by
            have h1 := Int.dvd_gcd hdN hdD
            rw [hgcd] at h1
            exact Int.eq_one_of_dvd_one hd0.le (by exact_mod_cast h1)
          have hfd : Int.fdiv n d = n := by
            rw [hd1, Int.fdiv_eq_ediv n (by omega), Int.ediv_one]
          have hDq : D = q0 + Int.fdiv n d * q1 := by
            rw [hfd, ← hinv.hD, hd1]
            ring
          exact hbreak (hDq ▸ hMD)
        · exact hge
      have ha1 : 1 ≤ Int.fdiv n d := by
        rw [ha, Int.le_ediv_iff_mul_le hd0]
        omega
      have hinv2 : LdInv M N D p1 q1 (p0 + Int.fdiv n d * p1)
          (q0 + Int.fdiv n d * q1) d (n - Int.fdiv n d * d) := by
        refine ⟨?_, ?_, ?_, ?_, ?_, ?_, ?_, ?_, ?_⟩
        · rw [← hinv.hN]; ring
        · rw [← hinv.hD]; ring
        · rcases hinv.det with h | h
          · exact Or.inr (by linear_combination -h)
          · exact Or.inl (by linear_combination -h)
        · nlinarith [hq0, hq1, ha1]
        · linarith [hq1]
        · exact hinv.hq1M
        · exact not_lt.mp hbreak
        · rw [hstep]; exact hr1
        · rw [hstep]; exact hrd
      have hfuel2 : (n - Int.fdiv n d * d).toNat < fuel := by
        rw [hstep]; omega
      obtain ⟨P0, Q0, P1, Q1, n2, d2, heq, hinv3, hb3⟩ :=
        ih p1 q1 (p0 + Int.fdiv n d * p1) (q0 + Int.fdiv n d * q1) d
          (n - Int.fdiv n d * d) hinv2 hfuel2
      refine ⟨P0, Q0, P1, Q1, n2, d2, ?_, hinv3, hb3⟩
      simpa only [ldLoop, if_pos hd0, if_neg hbreak] using heq

/-- Unrolling the first iteration from the initial state of
`limit_denominator`: the loop always reaches a break state satisfying the
invariant when the input fraction's denominator exceeds the bound. -/
theorem ldLoop_from_start (M : ℕ) (hM : 1 ≤ M) (N D : ℤ)
    (hgcd : Int.gcd N D = 1) (hMD : (M : ℤ) < D) :
    ∃ P0 Q0 P1 Q1 n2 d2,
      ldLoop M (D.toNat + 1) 0 1 1 0 N D = (P0, Q0, P1, Q1, n2, d2) ∧
      LdInv M N D P0 Q0 P1 Q1 n2 d2 ∧
      (M : ℤ) < Q0 + (Int.fdiv n2 d2) * Q1 := by
  have hD0 : 0 < D := by
    have : (1 : ℤ) ≤ (M : ℤ) := by exact_mod_cast hM
    omega
  have hM1 : (1 : ℤ) ≤ (M : ℤ) := by exact_mod_cast hM
  have ha : Int.fdiv N D = N / D := Int.fdiv_eq_ediv N hD0.le
  have hnobreak : ¬ ((M : ℤ) < 1 + Int.fdiv N D * 0) := by
    simp only [mul_zero, add_zero]
    omega
  have hr0 : 0 ≤ N % D := Int.emod_nonneg N hD0.ne'
  have hrd : N % D < D := Int.emod_lt_of_pos N hD0
  have hstep : N - Int.fdiv N D * D = N % D := by
    rw [ha, Int.emod_def]; ring
  have hr1 : 1 ≤ N % D := by
    rcases lt_or_le (N % D) 1 with hlt | hge
    · exfalso
      have hr : N % D = 0 := le_antisymm (by omega) hr0
      have hDN : D ∣ N := Int.dvd_of_emod_eq_zero hr
      have hD1 : D = 1 := by
        have h1 := Int.dvd_gcd hDN (dvd_refl D)
        rw [hgcd] at h1
        exact Int.eq_one_of_dvd_one hD0.le (by exact_mod_cast h1)
      omega
    · exact hge
  have hinv1 : LdInv M N D 1 0 (Int.fdiv N D) 1 D (N - Int.fdiv N D * D) := by
    refine ⟨?_, ?_, Or.inr (by ring), le_refl 1, le_refl 0, by omega, hM1, ?_, ?_⟩
    · ring
    · ring
    · rw [hstep]; exact hr1
    · rw [hstep]; exact hrd
  have hfuel1 : (N - Int.fdiv N D * D).toNat < D.toNat := by
    rw [hstep]; omega
  obtain ⟨P0, Q0, P1, Q1, n2, d2, heq, hinv3, hb3⟩ :=
    ldLoop_break M N D hgcd hMD D.toNat 1 0 (Int.fdiv N D) 1 D
      (N - Int.fdiv N D * D) hinv1 hfuel1
  refine ⟨P0, Q0, P1, Q1, n2, d2, ?_, hinv3, hb3⟩
  have : ldLoop M (D.toNat + 1) 0 1 1 0 N D =
      ldLoop M D.toNat 1 0 (0 + Int.fdiv N D * 1) (1 + Int.fdiv N D * 0) D
        (N - Int.fdiv N D * D) := by
    simp only [ldLoop, if_pos hD0, if_neg hnobreak]
  rw [this]
  simpa only [zero_add, one_mul, mul_one, mul_zero, add_zero] using heq

/-- Two distinct rationals are at least one over the product of their
denominators apart. -/
theorem abs_sub_den_ge (a b : ℚ) (h : a ≠ b) :
    1 / ((a.den : ℚ) * (b.den : ℚ)) ≤ |a - b| := by
  have hda : ((a.den : ℚ)) ≠ 0 := Nat.cast_ne_zero.mpr a.den_nz
  have hdb : ((b.den : ℚ)) ≠ 0 := Nat.cast_ne_zero.mpr b.den_nz
  have hdpos : (0 : ℚ) < (a.den : ℚ) * (b.den : ℚ) := by
    have h1 : (0:ℚ) < (a.den : ℚ) := by exact_mod_cast a.pos
    have h2 : (0:ℚ) < (b.den : ℚ) := by exact_mod_cast b.pos
    positivity
  have haa : a * (a.den : ℚ) = (a.num : ℚ) := by field_simp
  have hbb : b * (b.den : ℚ) = (b.num : ℚ) := by field_simp
  have h1 : a - b =
      ((a.num * b.den - b.num * a.den : ℤ) : ℚ) / ((a.den : ℚ) * (b.den : ℚ)) := by
    rw [eq_div_iff hdpos.ne']
    push_cast
    calc (a - b) * ((a.den : ℚ) * (b.den : ℚ))
        = (a * (a.den : ℚ)) * (b.den : ℚ) - (b * (b.den : ℚ)) * (a.den : ℚ) := by ring
      _ = (a.num : ℚ) * (b.den : ℚ) - (b.num : ℚ) * (a.den : ℚ) := by rw [haa, hbb]
  have hnum : a.num * b.den - b.num * a.den ≠ 0 := by
    intro h0
    apply h
    have h2 : a - b = 0 := by rw [h1, h0]; simp
    exact sub_eq_zero.mp h2
  have h2 : (1 : ℚ) ≤ |((a.num * b.den - b.num * a.den : ℤ) : ℚ)| := by
    have h3 : (1 : ℤ) ≤ |a.num * b.den - b.num * a.den| := Int.one_le_abs hnum
    exact_mod_cast h3
  rw [h1, abs_div, abs_of_pos hdpos]
  calc 1 / ((a.den : ℚ) * (b.den : ℚ))
      ≤ |((a.num * b.den - b.num * a.den : ℤ) : ℚ)| / ((a.den : ℚ) * (b.den : ℚ)) :=
        (div_le_div_iff_of_pos_right hdpos).mpr h2
    _ = _ := rfl

/-- One-sided version of `outside_farther`, assuming `a ≤ b`. -/
theorem outside_farther_aux {a b x c : ℚ} (hab : a ≤ b)
    (hbtw : |a - x| + |x - b| = |a - b|)
    (hout : |a - b| < |c - a| + |c - b|) :
    |a - x| < |c - x| ∨ |b - x| < |c - x| := by
  have h1 : a ≤ x ∧ x ≤ b := by
    rcases abs_cases (a - x) with ⟨e1, s1⟩ | ⟨e1, s1⟩ <;>
      rcases abs_cases (x - b) with ⟨e2, s2⟩ | ⟨e2, s2⟩ <;>
        rcases abs_cases (a - b) with ⟨e3, s3⟩ | ⟨e3, s3⟩ <;>
          rw [e1, e2, e3] at hbtw <;> exact ⟨by linarith, by linarith⟩
  have h2 : c < a ∨ b < c := by
    by_contra hcon
    push_neg at hcon
    obtain ⟨hca, hcb⟩ := hcon
    rw [abs_of_nonpos (show a - b ≤ 0 by linarith),
      abs_of_nonneg (show (0 : ℚ) ≤ c - a by linarith),
      abs_of_nonpos (show c - b ≤ 0 by linarith)] at hout
    linarith
  rcases h2 with h2 | h2
  · left
    rw [abs_of_nonpos (show a - x ≤ 0 by linarith),
      abs_of_nonpos (show c - x ≤ 0 by linarith)]
    linarith
  · right
    rw [abs_of_nonneg (show (0 : ℚ) ≤ b - x by linarith),
      abs_of_nonneg (show (0 : ℚ) ≤ c - x by linarith)]
    linarith

/-- A point outside the segment between `a` and `b` is strictly farther
from any point `x` inside it than one of the endpoints is. -/
theorem outside_farther {a b x c : ℚ} (hbtw : |a - x| + |x - b| = |a - b|)
    (hout : |a - b| < |c - a| + |c - b|) :
    |a - x| < |c - x| ∨ |b - x| < |c - x| := by
  rcases le_total a b with hab | hab
  · exact outside_farther_aux hab hbtw hout
  · have hbtw2 : |b - x| + |x - a| = |b - a| := by
      rw [abs_sub_comm b x, abs_sub_comm x a, abs_sub_comm b a]
      linarith [hbtw]
    have hout2 : |b - a| < |c - b| + |c - a| := by
      rw [abs_sub_comm b a]
      linarith [hout]
    rcases outside_farther_aux hab hbtw2 hout2 with h | h
    · exact Or.inr h
    · exact Or.inl h

set_option maxHeartbeats 1000000 in
/-- Heart of the `limit_denominator` correctness proof: at the break state
the two candidate fractions (the last convergent `P1/Q1` and the
semiconvergent) are Farey neighbours enclosing the input `x`, no fraction
with denominator at most 16 lies strictly between them, and the exact
comparison `2*d*(q0+k*q1) ≤ den` from `fractions.py` selects the candidate
closer to `x`, with an exact tie going to the convergent, whose denominator
is then the smaller one. -/
theorem break_state_closest (x : ℚ) (P0 Q0 P1 Q1 n2 d2 : ℤ)
    (hinv : LdInv 16 x.num (x.den : ℤ) P0 Q0 P1 Q1 n2 d2)
    (hbrk : (16 : ℤ) < Q0 + Int.fdiv n2 d2 * Q1)
    (f : ℚ)
    (hf : f =
      if 2 * d2 * (Q0 + Int.fdiv ((16 : ℤ) - Q0) Q1 * Q1) ≤ (x.den : ℤ) then
        (P1 : ℚ) / (Q1 : ℚ)
      else
        ((P0 + Int.fdiv ((16 : ℤ) - Q0) Q1 * P1 : ℤ) : ℚ) /
          ((Q0 + Int.fdiv ((16 : ℤ) - Q0) Q1 * Q1 : ℤ) : ℚ)) :
    f.den ≤ 16 ∧
    (∀ c : ℚ, c.den ≤ 16 → |f - x| ≤ |c - x|) ∧
    (∀ c : ℚ, c.den ≤ 16 → |c - x| = |f - x| → f.den ≤ c.den) := by
  have hQ1 := hinv.hq1
  have hQ0 := hinv.hq0
  have hQ0M := hinv.hq0M
  have hQ1M := hinv.hq1M
  have hd2 := hinv.hd
  have hnd2 := hinv.hnd
  have hDeq : Q1 * n2 + Q0 * d2 = (x.den : ℤ) := hinv.hD
  have hNeq : P1 * n2 + P0 * d2 = x.num := hinv.hN
  obtain ⟨e, hedef, he⟩ :
      ∃ e, P1 * Q0 - P0 * Q1 = e ∧ (e = 1 ∨ e = -1) := ⟨_, rfl, hinv.det⟩
  have hQ1pos : (0 : ℤ) < Q1 := hQ1
  set k : ℤ := Int.fdiv ((16 : ℤ) - Q0) Q1 with hkdef
  have hkediv : k = ((16 : ℤ) - Q0) / Q1 := by
    rw [hkdef, Int.fdiv_eq_ediv _ hQ1pos.le]
  have hk0 : 0 ≤ k := by
    rw [hkediv]; exact Int.ediv_nonneg (by omega) hQ1pos.le
  have hkQ : k * Q1 ≤ 16 - Q0 := by
    rw [hkediv]; exact Int.ediv_mul_le _ hQ1pos.ne'
  have hkQ2 : 16 - Q0 < (k + 1) * Q1 := by
    rw [hkediv]; exact Int.lt_ediv_add_one_mul_self _ hQ1pos
  have hBle : Q0 + k * Q1 ≤ 16 := by omega
  have hBQ1 : (16 : ℤ) < (Q0 + k * Q1) + Q1 := by
    have h0 : (k + 1) * Q1 = k * Q1 + Q1 := by ring
    omega
  have hB1 : 1 ≤ Q0 + k * Q1 := by
    rcases eq_or_lt_of_le hQ0 with h0 | h0
    · have hk1 : 1 ≤ k := by
        rw [hkediv, Int.le_ediv_iff_mul_le hQ1pos]
        omega
      nlinarith
    · nlinarith [mul_nonneg hk0 hQ1pos.le]
  have hka : k < Int.fdiv n2 d2 := by
    by_contra hcon
    push_neg at hcon
    have h0 : Int.fdiv n2 d2 * Q1 ≤ k * Q1 :=
      mul_le_mul_of_nonneg_right hcon hQ1pos.le
    omega
  have hn2a : Int.fdiv n2 d2 * d2 ≤ n2 := by
    rw [Int.fdiv_eq_ediv _ (by omega : (0 : ℤ) ≤ d2)]
    exact Int.ediv_mul_le n2 (by omega)
  have hnk1 : 1 ≤ n2 - k * d2 := by
    have h0 : (k + 1) * d2 ≤ Int.fdiv n2 d2 * d2 :=
      mul_le_mul_of_nonneg_right (by omega) (by omega)
    nlinarith
  -- coprimality of the two candidate fractions (Farey neighbours)
  have hcop1 : Int.gcd P1 Q1 = 1 := by
    have h1 : (Int.gcd P1 Q1 : ℤ) ∣ P1 := Int.gcd_dvd_left
    have h2 : (Int.gcd P1 Q1 : ℤ) ∣ Q1 := Int.gcd_dvd_right
    have h3 : (Int.gcd P1 Q1 : ℤ) ∣ e := by
      rw [← hedef]
      exact dvd_sub (h1.mul_right Q0) (h2.mul_left P0)
    have h4 : (Int.gcd P1 Q1 : ℤ) ∣ 1 := by
      rcases he with h | h <;> rw [h] at h3
      · exact h3
      · exact dvd_neg.mp h3
    exact_mod_cast Int.eq_one_of_dvd_one (Int.natCast_nonneg _) h4
  have hdetS : P1 * (Q0 + k * Q1) - (P0 + k * P1) * Q1 = e := by
    rw [← hedef]; ring
  have hcop2 : Int.gcd (P0 + k * P1) (Q0 + k * Q1) = 1 := by
    have h1 : (Int.gcd (P0 + k * P1) (Q0 + k * Q1) : ℤ) ∣ P0 + k * P1 :=
      Int.gcd_dvd_left
    have h2 : (Int.gcd (P0 + k * P1) (Q0 + k * Q1) : ℤ) ∣ Q0 + k * Q1 :=
      Int.gcd_dvd_right
    have h3 : (Int.gcd (P0 + k * P1) (Q0 + k * Q1) : ℤ) ∣ e := by
      rw [← hdetS]
      exact dvd_sub (h2.mul_left P1) (h1.mul_right Q1)
    have h4 : (Int.gcd (P0 + k * P1) (Q0 + k * Q1) : ℤ) ∣ 1 := by
      rcases he with h | h <;> rw [h] at h3
      · exact h3
      · exact dvd_neg.mp h3
    exact_mod_cast Int.eq_one_of_dvd_one (Int.natCast_nonneg _) h4
  -- integer numerator identities
  have k1Z : P1 * (x.den : ℤ) - Q1 * x.num = e * d2 := by
    linear_combination (-P1) * hDeq + Q1 * hNeq + d2 * hedef
  have k2Z : (P0 + k * P1) * (x.den : ℤ) - (Q0 + k * Q1) * x.num =
      -e * (n2 - k * d2) := by
    linear_combination (-(P0 + k * P1)) * hDeq + (Q0 + k * Q1) * hNeq +
      (-(n2 - k * d2)) * hedef
  have k3Z : (P0 + k * P1) * Q1 - (Q0 + k * Q1) * P1 = -e := by
    linear_combination (-1 : ℤ) * hedef
  have hsumZ : (n2 - k * d2) * Q1 + d2 * (Q0 + k * Q1) = (x.den : ℤ) := by
    linear_combination hDeq
  -- cast positivity facts
  have hQ1Q : (0 : ℚ) < (Q1 : ℚ) := by exact_mod_cast hQ1pos
  have hBQ : (0 : ℚ) < ((Q0 + k * Q1 : ℤ) : ℚ) := by exact_mod_cast (by omega : (0:ℤ) < Q0 + k * Q1)
  have hdenQ : (0 : ℚ) < ((x.den : ℕ) : ℚ) := by
    exact_mod_cast x.pos
  have hd2Q : (0 : ℚ) < ((d2 : ℤ) : ℚ) := by exact_mod_cast (by omega : (0:ℤ) < d2)
  have hnkQ : (0 : ℚ) < ((n2 - k * d2 : ℤ) : ℚ) := by
    exact_mod_cast (by omega : (0:ℤ) < n2 - k * d2)
  -- denominators of the candidates
  have hb2den : ((((P1 : ℚ) / (Q1 : ℚ)).den : ℕ) : ℤ) = Q1 := by
    apply Rat.den_div_eq_of_coprime hQ1pos
    simpa [Int.gcd] using hcop1
  have hsden : ((((((P0 + k * P1 : ℤ) : ℚ)) / (((Q0 + k * Q1 : ℤ) : ℚ))).den : ℕ) : ℤ) =
      Q0 + k * Q1 := by
    apply Rat.den_div_eq_of_coprime (by omega : (0:ℤ) < Q0 + k * Q1)
    simpa [Int.gcd] using hcop2
    -- the input fraction and the two candidates as rationals
  have hxeq : x = ((x.num : ℤ) : ℚ) / ((x.den : ℕ) : ℚ) := (Rat.num_div_den x).symm
  have habse : |((e : ℤ) : ℚ)| = 1 := by
    rcases he with h | h <;> rw [h] <;> norm_num
  have k1Q : (P1 : ℚ) * ((x.den : ℕ) : ℚ) - (Q1 : ℚ) * ((x.num : ℤ) : ℚ) =
      ((e : ℤ) : ℚ) * ((d2 : ℤ) : ℚ) := by exact_mod_cast k1Z
  have k2Q : ((P0 + k * P1 : ℤ) : ℚ) * ((x.den : ℕ) : ℚ) -
      ((Q0 + k * Q1 : ℤ) : ℚ) * ((x.num : ℤ) : ℚ) =
      -((e : ℤ) : ℚ) * ((n2 - k * d2 : ℤ) : ℚ) := by exact_mod_cast k2Z
  have k3Q : ((P0 + k * P1 : ℤ) : ℚ) * (Q1 : ℚ) -
      ((Q0 + k * Q1 : ℤ) : ℚ) * (P1 : ℚ) = -((e : ℤ) : ℚ) := by exact_mod_cast k3Z
  have hsumQ : ((n2 - k * d2 : ℤ) : ℚ) * (Q1 : ℚ) +
      ((d2 : ℤ) : ℚ) * ((Q0 + k * Q1 : ℤ) : ℚ) = ((x.den : ℕ) : ℚ) := by
    exact_mod_cast hsumZ
  have habs2 : |(P1 : ℚ) / (Q1 : ℚ) - x| =
      ((d2 : ℤ) : ℚ) / ((Q1 : ℚ) * ((x.den : ℕ) : ℚ)) := by
    conv_lhs => rw [hxeq]
    rw [div_sub_div _ _ hQ1Q.ne' hdenQ.ne', k1Q, abs_div, abs_mul, habse, one_mul,
      abs_of_pos hd2Q, abs_of_pos (mul_pos hQ1Q hdenQ)]
  have habsS : |((P0 + k * P1 : ℤ) : ℚ) / ((Q0 + k * Q1 : ℤ) : ℚ) - x| =
      ((n2 - k * d2 : ℤ) : ℚ) / (((Q0 + k * Q1 : ℤ) : ℚ) * ((x.den : ℕ) : ℚ)) := by
    conv_lhs => rw [hxeq]
    rw [div_sub_div _ _ hBQ.ne' hdenQ.ne', k2Q, abs_div, abs_mul, abs_neg, habse,
      one_mul, abs_of_pos hnkQ, abs_of_pos (mul_pos hBQ hdenQ)]
  have habsSB : |((P0 + k * P1 : ℤ) : ℚ) / ((Q0 + k * Q1 : ℤ) : ℚ) -
      (P1 : ℚ) / (Q1 : ℚ)| = 1 / (((Q0 + k * Q1 : ℤ) : ℚ) * (Q1 : ℚ)) := by
    rw [div_sub_div _ _ hBQ.ne' hQ1Q.ne', k3Q, abs_div, abs_neg, habse,
      abs_of_pos (mul_pos hBQ hQ1Q)]
  have hmid : |((P0 + k * P1 : ℤ) : ℚ) / ((Q0 + k * Q1 : ℤ) : ℚ) - x| +
      |x - (P1 : ℚ) / (Q1 : ℚ)| =
      |((P0 + k * P1 : ℤ) : ℚ) / ((Q0 + k * Q1 : ℤ) : ℚ) - (P1 : ℚ) / (Q1 : ℚ)| := by
    rw [abs_sub_comm x, habsS, habs2, habsSB]
    rw [div_add_div _ _ (mul_pos hBQ hdenQ).ne' (mul_pos hQ1Q hdenQ).ne',
      div_eq_div_iff
        (mul_pos (mul_pos hBQ hdenQ) (mul_pos hQ1Q hdenQ)).ne'
        (mul_pos hBQ hQ1Q).ne']
    push_cast
    push_cast at hsumQ
    linear_combination
      ((Q1 : ℚ) * ((Q0 : ℚ) + (k : ℚ) * (Q1 : ℚ)) * ((x.den : ℕ) : ℚ)) * hsumQ
  have e1 : ((n2 - k * d2 : ℤ) : ℚ) * ((Q1 : ℚ) * ((x.den : ℕ) : ℚ)) =
      (((x.den : ℕ) : ℚ) - ((d2 : ℤ) : ℚ) * ((Q0 + k * Q1 : ℤ) : ℚ)) *
        ((x.den : ℕ) : ℚ) := by
    push_cast
    push_cast at hsumQ
    linear_combination ((x.den : ℕ) : ℚ) * hsumQ
  have hcnd : (2 * d2 * (Q0 + k * Q1) ≤ (x.den : ℤ)) ↔
      |(P1 : ℚ) / (Q1 : ℚ) - x| ≤
        |((P0 + k * P1 : ℤ) : ℚ) / ((Q0 + k * Q1 : ℤ) : ℚ) - x| := by
    rw [habs2, habsS, div_le_div_iff (mul_pos hQ1Q hdenQ) (mul_pos hBQ hdenQ)]
    constructor
    · intro h
      have hq : 2 * ((d2 : ℤ) : ℚ) * ((Q0 + k * Q1 : ℤ) : ℚ) ≤ ((x.den : ℕ) : ℚ) := by
        exact_mod_cast h
      have h2 : ((d2 : ℤ) : ℚ) * ((Q0 + k * Q1 : ℤ) : ℚ) ≤
          ((x.den : ℕ) : ℚ) - ((d2 : ℤ) : ℚ) * ((Q0 + k * Q1 : ℤ) : ℚ) := by
        linarith
      calc ((d2 : ℤ) : ℚ) * (((Q0 + k * Q1 : ℤ) : ℚ) * ((x.den : ℕ) : ℚ))
          = (((d2 : ℤ) : ℚ) * ((Q0 + k * Q1 : ℤ) : ℚ)) * ((x.den : ℕ) : ℚ) := by
            ring
        _ ≤ (((x.den : ℕ) : ℚ) - ((d2 : ℤ) : ℚ) * ((Q0 + k * Q1 : ℤ) : ℚ)) *
              ((x.den : ℕ) : ℚ) := mul_le_mul_of_nonneg_right h2 hdenQ.le
        _ = ((n2 - k * d2 : ℤ) : ℚ) * ((Q1 : ℚ) * ((x.den : ℕ) : ℚ)) := e1.symm
    · intro h
      have h2 : (((d2 : ℤ) : ℚ) * ((Q0 + k * Q1 : ℤ) : ℚ)) * ((x.den : ℕ) : ℚ) ≤
          (((x.den : ℕ) : ℚ) - ((d2 : ℤ) : ℚ) * ((Q0 + k * Q1 : ℤ) : ℚ)) *
            ((x.den : ℕ) : ℚ) := by
        calc (((d2 : ℤ) : ℚ) * ((Q0 + k * Q1 : ℤ) : ℚ)) * ((x.den : ℕ) : ℚ)
            = ((d2 : ℤ) : ℚ) * (((Q0 + k * Q1 : ℤ) : ℚ) * ((x.den : ℕ) : ℚ)) := by
              ring
          _ ≤ ((n2 - k * d2 : ℤ) : ℚ) * ((Q1 : ℚ) * ((x.den : ℕ) : ℚ)) := h
          _ = _ := e1
      have h3 := (mul_le_mul_right hdenQ).mp h2
      have h4 : 2 * ((d2 : ℤ) : ℚ) * ((Q0 + k * Q1 : ℤ) : ℚ) ≤ ((x.den : ℕ) : ℚ) := by
        linarith
      exact_mod_cast h4
  -- every sixteenth-denominator fraction other than the two candidates is
  -- strictly farther from x than one of them
  have houter : ∀ c : ℚ, c.den ≤ 16 →
      c ≠ ((P0 + k * P1 : ℤ) : ℚ) / ((Q0 + k * Q1 : ℤ) : ℚ) →
      c ≠ (P1 : ℚ) / (Q1 : ℚ) →
      (|((P0 + k * P1 : ℤ) : ℚ) / ((Q0 + k * Q1 : ℤ) : ℚ) - x| < |c - x| ∨
        |(P1 : ℚ) / (Q1 : ℚ) - x| < |c - x|) := by
    intro c hc hcs hcb
    apply outside_farther hmid
    have hvpos : (0 : ℚ) < ((c.den : ℕ) : ℚ) := by exact_mod_cast c.pos
    have hv16 : ((c.den : ℕ) : ℚ) ≤ 16 := by exact_mod_cast hc
    have hles : 1 / (((c.den : ℕ) : ℚ) * ((Q0 + k * Q1 : ℤ) : ℚ)) ≤
        |c - ((P0 + k * P1 : ℤ) : ℚ) / ((Q0 + k * Q1 : ℤ) : ℚ)| := by
      have h0 := abs_sub_den_ge c
        (((P0 + k * P1 : ℤ) : ℚ) / ((Q0 + k * Q1 : ℤ) : ℚ)) hcs
      rwa [show (((((P0 + k * P1 : ℤ) : ℚ) / ((Q0 + k * Q1 : ℤ) : ℚ)).den : ℕ) : ℚ) =
          ((Q0 + k * Q1 : ℤ) : ℚ) from by exact_mod_cast hsden] at h0
    have hleb : 1 / (((c.den : ℕ) : ℚ) * (Q1 : ℚ)) ≤ |c - (P1 : ℚ) / (Q1 : ℚ)| := by
      have h0 := abs_sub_den_ge c ((P1 : ℚ) / (Q1 : ℚ)) hcb
      rwa [show ((((P1 : ℚ) / (Q1 : ℚ)).den : ℕ) : ℚ) = ((Q1 : ℤ) : ℚ) from by
          exact_mod_cast hb2den] at h0
    have hBQ1Q : (16 : ℚ) < ((Q0 + k * Q1 : ℤ) : ℚ) + (Q1 : ℚ) := by
      exact_mod_cast hBQ1
    have hkey : 1 / (((Q0 + k * Q1 : ℤ) : ℚ) * (Q1 : ℚ)) <
        1 / (((c.den : ℕ) : ℚ) * ((Q0 + k * Q1 : ℤ) : ℚ)) +
          1 / (((c.den : ℕ) : ℚ) * (Q1 : ℚ)) := by
      rw [div_add_div _ _ (mul_pos hvpos hBQ).ne' (mul_pos hvpos hQ1Q).ne',
        div_lt_div_iff (mul_pos hBQ hQ1Q)
          (mul_pos (mul_pos hvpos hBQ) (mul_pos hvpos hQ1Q))]
      have h9 : (0 : ℚ) < ((c.den : ℕ) : ℚ) * ((Q0 + k * Q1 : ℤ) : ℚ) * (Q1 : ℚ) := by
        positivity
      have h10 : ((c.den : ℕ) : ℚ) < ((Q0 + k * Q1 : ℤ) : ℚ) + (Q1 : ℚ) := by
        linarith
      have h11 := mul_lt_mul_of_pos_left h10 h9
      calc 1 * ((((c.den : ℕ) : ℚ) * ((Q0 + k * Q1 : ℤ) : ℚ)) *
            (((c.den : ℕ) : ℚ) * (Q1 : ℚ)))
          = ((c.den : ℕ) : ℚ) * ((Q0 + k * Q1 : ℤ) : ℚ) * (Q1 : ℚ) *
              ((c.den : ℕ) : ℚ) := by ring
        _ < ((c.den : ℕ) : ℚ) * ((Q0 + k * Q1 : ℤ) : ℚ) * (Q1 : ℚ) *
              (((Q0 + k * Q1 : ℤ) : ℚ) + (Q1 : ℚ)) := h11
        _ = (1 * (((c.den : ℕ) : ℚ) * (Q1 : ℚ)) +
              (((c.den : ℕ) : ℚ) * ((Q0 + k * Q1 : ℤ) : ℚ)) * 1) *
              (((Q0 + k * Q1 : ℤ) : ℚ) * (Q1 : ℚ)) := by ring
    rw [habsSB]
    calc 1 / (((Q0 + k * Q1 : ℤ) : ℚ) * (Q1 : ℚ))
        < 1 / (((c.den : ℕ) : ℚ) * ((Q0 + k * Q1 : ℤ) : ℚ)) +
            1 / (((c.den : ℕ) : ℚ) * (Q1 : ℚ)) := hkey
      _ ≤ |c - ((P0 + k * P1 : ℤ) : ℚ) / ((Q0 + k * Q1 : ℤ) : ℚ)| +
            |c - (P1 : ℚ) / (Q1 : ℚ)| := add_le_add hles hleb
  by_cases hC : 2 * d2 * (Q0 + k * Q1) ≤ (x.den : ℤ)
  · -- the closer candidate is the convergent P1/Q1
    have hfeq : f = (P1 : ℚ) / (Q1 : ℚ) := by rw [hf, if_pos hC]
    have hfb : |f - x| ≤ |(P1 : ℚ) / (Q1 : ℚ) - x| := le_of_eq (by rw [hfeq])
    have hfs : |f - x| ≤
        |((P0 + k * P1 : ℤ) : ℚ) / ((Q0 + k * Q1 : ℤ) : ℚ) - x| := by
      rw [hfeq]
      exact hcnd.mp hC
    refine ⟨?_, ?_, ?_⟩
    · have h0 : ((f.den : ℕ) : ℤ) = Q1 := by rw [hfeq]; exact hb2den
      omega
    · intro c hc
      by_cases hcs : c = ((P0 + k * P1 : ℤ) : ℚ) / ((Q0 + k * Q1 : ℤ) : ℚ)
      · rw [hcs]; exact hfs
      by_cases hcb : c = (P1 : ℚ) / (Q1 : ℚ)
      · rw [hcb]; exact hfb
      · rcases houter c hc hcs hcb with h | h
        · exact le_of_lt (lt_of_le_of_lt hfs h)
        · exact le_of_lt (lt_of_le_of_lt hfb h)
    · intro c hc htie
      by_cases hcb : c = (P1 : ℚ) / (Q1 : ℚ)
      · -- c is f itself
        rw [hfeq, hcb]
      by_cases hcs : c = ((P0 + k * P1 : ℤ) : ℚ) / ((Q0 + k * Q1 : ℤ) : ℚ)
      · -- the genuine tie: both candidates are equally close; the code
        -- returned the convergent, whose denominator is the smaller one
        have htie2 : ((n2 - k * d2 : ℤ) : ℚ) /
            (((Q0 + k * Q1 : ℤ) : ℚ) * ((x.den : ℕ) : ℚ)) =
            ((d2 : ℤ) : ℚ) / ((Q1 : ℚ) * ((x.den : ℕ) : ℚ)) := by
          rw [← habsS, ← habs2, ← hfeq, ← hcs]
          exact htie
        have hcross : (n2 - k * d2) * Q1 = d2 * (Q0 + k * Q1) := by
          rw [div_eq_div_iff (mul_pos hBQ hdenQ).ne' (mul_pos hQ1Q hdenQ).ne'] at htie2
          have h5 : (((n2 - k * d2 : ℤ) : ℚ) * (Q1 : ℚ)) * ((x.den : ℕ) : ℚ) =
              (((d2 : ℤ) : ℚ) * ((Q0 + k * Q1 : ℤ) : ℚ)) * ((x.den : ℕ) : ℚ) := by
            linarith [htie2]
          have h6 := mul_right_cancel₀ hdenQ.ne' h5
          exact_mod_cast h6
        have hQ1B : Q1 ≤ Q0 + k * Q1 := by
          by_contra hcon
          push_neg at hcon
          have hk00 : k = 0 := by
            rcases eq_or_lt_of_le hk0 with h0 | h0
            · omega
            · exfalso
              have h1 : 1 * Q1 ≤ k * Q1 :=
                mul_le_mul_of_nonneg_right (by omega) (by omega)
              omega
          rw [hk00] at hcross hcon
          simp only [zero_mul, sub_zero, add_zero] at hcross hcon
          have h1 : n2 * (Q0 + 1) ≤ n2 * Q1 :=
            mul_le_mul_of_nonneg_left (by omega) (by omega)
          have h2 : d2 * Q0 ≤ n2 * Q0 :=
            mul_le_mul_of_nonneg_right (by omega) (by omega)
          linarith [h1, h2, hcross, hd2, hnd2]
        have h0 : ((f.den : ℕ) : ℤ) = Q1 := by rw [hfeq]; exact hb2den
        have h1 : ((c.den : ℕ) : ℤ) = Q0 + k * Q1 := by rw [hcs]; exact hsden
        omega
      · exfalso
        rcases houter c hc hcs hcb with h | h
        · have := lt_of_le_of_lt hfs h
          rw [htie] at this
          exact lt_irrefl _ this
        · have := lt_of_le_of_lt hfb h
          rw [htie] at this
          exact lt_irrefl _ this
  · -- the closer candidate is the semiconvergent
    have hfeq : f = ((P0 + k * P1 : ℤ) : ℚ) / ((Q0 + k * Q1 : ℤ) : ℚ) := by
      rw [hf, if_neg hC]
    have hfs : |f - x| ≤
        |((P0 + k * P1 : ℤ) : ℚ) / ((Q0 + k * Q1 : ℤ) : ℚ) - x| :=
      le_of_eq (by rw [hfeq])
    have hstrict : |((P0 + k * P1 : ℤ) : ℚ) / ((Q0 + k * Q1 : ℤ) : ℚ) - x| <
        |(P1 : ℚ) / (Q1 : ℚ) - x| := by
      rcases lt_or_le |((P0 + k * P1 : ℤ) : ℚ) / ((Q0 + k * Q1 : ℤ) : ℚ) - x|
          |(P1 : ℚ) / (Q1 : ℚ) - x| with h | h
      · exact h
      · exact absurd (hcnd.mpr h) hC
    have hfb : |f - x| ≤ |(P1 : ℚ) / (Q1 : ℚ) - x| := by
      rw [hfeq]
      exact le_of_lt hstrict
    refine ⟨?_, ?_, ?_⟩
    · have h0 : ((f.den : ℕ) : ℤ) = Q0 + k * Q1 := by rw [hfeq]; exact hsden
      omega
    · intro c hc
      by_cases hcs : c = ((P0 + k * P1 : ℤ) : ℚ) / ((Q0 + k * Q1 : ℤ) : ℚ)
      · rw [hcs]; exact hfs
      by_cases hcb : c = (P1 : ℚ) / (Q1 : ℚ)
      · rw [hcb]; exact hfb
      · rcases houter c hc hcs hcb with h | h
        · exact le_of_lt (lt_of_le_of_lt hfs h)
        · exact le_of_lt (lt_of_le_of_lt hfb h)
    · intro c hc htie
      by_cases hcs : c = ((P0 + k * P1 : ℤ) : ℚ) / ((Q0 + k * Q1 : ℤ) : ℚ)
      · rw [hfeq, hcs]
      by_cases hcb : c = (P1 : ℚ) / (Q1 : ℚ)
      · -- a tie here is impossible: the semiconvergent is strictly closer
        exfalso
        rw [hcb] at htie
        rw [hfeq] at htie
        exact lt_irrefl _ (htie ▸ hstrict)
      · exfalso
        rcases houter c hc hcs hcb with h | h
        · have := lt_of_le_of_lt hfs h
          rw [htie] at this
          exact lt_irrefl _ this
        · have := lt_of_le_of_lt hfb h
          rw [htie] at this
          exact lt_irrefl _ this

/-- `Fraction.limit_denominator(16)` returns the fraction with denominator
at most 16 closest to its input, ties broken toward the smaller
denominator. -/
theorem limit_denominator_closest (x : ℚ) :
    IsClosestSixteenth x (limit_denominator x 16) := by
  by_cases hden : x.den ≤ 16
  · have hf : limit_denominator x 16 = x := by
      simp [limit_denominator, hden]
    rw [IsClosestSixteenth, hf]
    refine ⟨hden, ?_, ?_⟩
    · intro c _
      simp [abs_nonneg]
    · intro c _ htie
      have h0 : |c - x| = 0 := by simpa using htie
      have hcx : c = x := sub_eq_zero.mp (abs_eq_zero.mp h0)
      rw [hcx]
  · push_neg at hden
    have hMD : (16 : ℤ) < (x.den : ℤ) := by exact_mod_cast hden
    have hgcd : Int.gcd x.num (x.den : ℤ) = 1 := by
      have h0 := x.reduced
      simpa [Int.gcd, Int.natAbs_ofNat] using h0
    obtain ⟨P0, Q0, P1, Q1, n2, d2, heq, hinv, hbrk⟩ :=
      ldLoop_from_start 16 (by norm_num) x.num (x.den : ℤ) hgcd hMD
    rw [show ((x.den : ℤ).toNat = x.den) from Int.toNat_ofNat x.den] at heq
    have hf : limit_denominator x 16 =
        if 2 * d2 * (Q0 + Int.fdiv ((16 : ℤ) - Q0) Q1 * Q1) ≤ (x.den : ℤ) then
          (P1 : ℚ) / (Q1 : ℚ)
        else
          ((P0 + Int.fdiv ((16 : ℤ) - Q0) Q1 * P1 : ℤ) : ℚ) /
            ((Q0 + Int.fdiv ((16 : ℤ) - Q0) Q1 * Q1 : ℤ) : ℚ) := by
      rw [limit_denominator, if_neg (by omega)]
      rw [heq]
      norm_num
    exact break_state_closest x P0 Q0 P1 Q1 n2 d2 hinv hbrk _ hf

unseal Rat.mul Rat.add Rat.sub Rat.inv in
/-- C4: for every non-negative quantity whose doubled value is not a whole
number, `format_quantity` computes the closest fraction with denominator at
most 16 to the doubled value (ties toward the smaller denominator); within
0.01 absolute error it renders that fraction as a mixed number when the
numerator exceeds the denominator (collapsing to the whole part when the
remainder is 0) and as `num/den` otherwise, and past the tolerance it
renders the doubled value to one decimal place with trailing zero/point
stripped; in particular `format_quantity 0.75 = "1 1/2"` and
`format_quantity 0.33 = "2/3"`. -/
theorem format_quantity_closest_fraction :
    (∀ q : ℚ, 0 ≤ q → (q * 2).den ≠ 1 →
      IsClosestSixteenth (q * 2) (limit_denominator (q * 2) 16) ∧
      format_quantity q =
        (if |limit_denominator (q * 2) 16 - q * 2| < 1 / 100 then
          fractionString (limit_denominator (q * 2) 16)
        else rstripChar (rstripChar (oneDecimalRepr (q * 2)) '0') '.')) ∧
    format_quantity (3 / 4 : ℚ) = "1 1/2" ∧
    format_quantity (33 / 100 : ℚ) = "2/3" := by
  refine ⟨?_, by decide, by decide⟩
  intro q _ hden
  refine ⟨limit_denominator_closest (q * 2), ?_⟩
  simp only [format_quantity]
  rw [if_neg hden]

/-- C10: for every quantity with `0 < 2*q < 0.01` the closest sixteenth
fraction to the doubled value is `0/1`, inside the tolerance, and since its
numerator 0 does not exceed its denominator 1 it is rendered as the simple
fraction `"0/1"`. -/
theorem format_quantity_tiny (q : ℚ) (h0 : 0 < 2 * q) (h1 : 2 * q < 1 / 100) :
    format_quantity q = "0/1" := by
  rw [mul_comm] at h0 h1
  have hden : (q * 2).den ≠ 1 := by
    intro hd
    have h2 : q * 2 = ((q * 2).num : ℚ) := by
      conv_lhs => rw [← Rat.num_div_den (q * 2)]
      rw [hd]
      norm_num
    have h3 : 0 < (q * 2).num := Rat.num_pos.mpr h0
    have h4 : (1 : ℚ) ≤ ((q * 2).num : ℚ) := by exact_mod_cast h3
    rw [← h2] at h4
    linarith
  obtain ⟨hd16, hmin, _⟩ := limit_denominator_closest (q * 2)
  have hx0 : |(0 : ℚ) - q * 2| = q * 2 := by
    rw [zero_sub, abs_neg, abs_of_pos h0]
  have hA : |limit_denominator (q * 2) 16 - q * 2| ≤ q * 2 := by
    have := hmin 0 (by norm_num)
    rwa [hx0] at this
  have hf0 : limit_denominator (q * 2) 16 = 0 := by
    by_contra hne
    have hnum : (limit_denominator (q * 2) 16).num ≠ 0 := Rat.num_ne_zero.mpr hne
    have h6 : (1 : ℚ) ≤ |((limit_denominator (q * 2) 16).num : ℚ)| := by
      exact_mod_cast Int.one_le_abs hnum
    have hdpos : (0 : ℚ) < ((limit_denominator (q * 2) 16).den : ℚ) := by
      exact_mod_cast (limit_denominator (q * 2) 16).pos
    have hd16Q : ((limit_denominator (q * 2) 16).den : ℚ) ≤ 16 := by
      exact_mod_cast hd16
    have h7 : |limit_denominator (q * 2) 16| =
        |((limit_denominator (q * 2) 16).num : ℚ)| /
          ((limit_denominator (q * 2) 16).den : ℚ) := by
      conv_lhs => rw [← Rat.num_div_den (limit_denominator (q * 2) 16)]
      rw [abs_div, abs_of_pos hdpos]
    have h8 : (1 : ℚ) / 16 ≤ |limit_denominator (q * 2) 16| := by
      rw [h7]
      calc (1 : ℚ) / 16 ≤ 1 / ((limit_denominator (q * 2) 16).den : ℚ) := by
            apply one_div_le_one_div_of_le hdpos hd16Q
        _ ≤ |((limit_denominator (q * 2) 16).num : ℚ)| /
              ((limit_denominator (q * 2) 16).den : ℚ) :=
            (div_le_div_iff_of_pos_right hdpos).mpr h6
    have h9 := abs_sub_abs_le_abs_sub (limit_denominator (q * 2) 16) (q * 2)
    rw [abs_of_pos h0] at h9
    linarith
  simp only [format_quantity]
  rw [if_neg hden, hf0, if_pos (by rwa [hx0])]
  decide

unseal Rat.mul Rat.add Rat.sub Rat.inv in
/-- C4, witness: the main theorem applied at the quantity 33/100. -/
theorem format_quantity_closest_fraction_witness :
    IsClosestSixteenth ((33 / 100 : ℚ) * 2)
      (limit_denominator ((33 / 100 : ℚ) * 2) 16) ∧
    format_quantity (33 / 100 : ℚ) =
      (if |limit_denominator ((33 / 100 : ℚ) * 2) 16 - (33 / 100 : ℚ) * 2| <
          1 / 100 then
        fractionString (limit_denominator ((33 / 100 : ℚ) * 2) 16)
      else rstripChar (rstripChar (oneDecimalRepr ((33 / 100 : ℚ) * 2)) '0') '.') :=
  format_quantity_closest_fraction.1 (33 / 100) (by norm_num) (by decide)

unseal Rat.mul Rat.add Rat.sub Rat.inv in
/-- C10, witness: the theorem applied at the quantity 1/1000. -/
theorem format_quantity_tiny_witness :
    format_quantity (1 / 1000 : ℚ) = "0/1" :=
  format_quantity_tiny (1 / 1000) (by norm_num) (by norm_num)
